import Mathlib

/-!
Verification of the Campus-Sync-Edge-Ai skill-gap core: the improvement-plan
builder (`frontend/src/pages/ImprovementPlan.tsx`), the skill dependency graph
builder and its radial layout (`frontend/src/components/SkillGraphViz.tsx`,
including the pan/zoom variant embedded in `Layout.tsx`), the session state
holding the mastered-skill set (`ResumeContext`), the quiz verification path
(`StudyHub.tsx`), and the gap-analysis page (`SkillGap.tsx`).  Components the
specification describes but whose code is not in the repository snapshot (the
day-bucket `distribute` packer and the per-level mastery gate) are modelled
from the specification text and marked as such.
-/

namespace CampusSync

/-! ### Scheduler: `buildPlan` from `ImprovementPlan.tsx`

The source builds plan items with fields `days`, `title`, `skill`, `priority`,
`duration` (a display string such as `"180 min est."`), `resources` and
`subtasks`.  The `resources` field (static curated links chosen by a lookup
table on the lower-cased skill) carries no scheduling logic and is omitted
here; all other fields are embedded. -/

inductive Priority
  | Critical
  | High
  | Medium
deriving DecidableEq

structure PlanItem where
  days : String
  title : String
  skill : String
  priority : Priority
  duration : String
  subtasks : List String
deriving DecidableEq

/-- JS `w.charAt(0).toUpperCase() + w.slice(1)` (empty word stays empty). -/
def capitalizeWord (w : String) : String :=
  match w.toList with
  | [] => ""
  | c :: rest => String.mk (c.toUpper :: rest)

/-- The `addItem` closure of `buildPlan`: appends one item and advances the
running `day` counter by `days`.  The `days` display string reproduces the
source condition `day === day + days - 1` (true exactly when `days = 1`). -/
def addItem (st : List PlanItem × Nat) (skill : String) (priority : Priority)
    (days : Nat) : List PlanItem × Nat :=
  let day := st.2
  let item : PlanItem :=
    { days := if day = day + days - 1 then "Day " ++ toString day
              else "Day " ++ toString day ++ "–" ++ toString (day + days - 1)
      title := "Master " ++ String.intercalate " "
        ((skill.splitOn " ").map capitalizeWord)
      skill := skill
      priority := priority
      duration := toString (days * 90) ++ " min est."
      subtasks :=
        [ "Read/watch the first resource for " ++ skill
        , "Complete 3 practice exercises"
        , "Add " ++ skill ++ " to your resume project" ] }
  (st.1 ++ [item], day + days)

/-- The fixed final item: `Build a <role> Portfolio Project`. -/
def projectItem (role : String) (day : Nat) : PlanItem :=
  { days := "Day " ++ toString day
    title := "Build a " ++ role ++ " Portfolio Project"
    skill := "project"
    priority := Priority.High
    duration := "3–4 hr"
    subtasks :=
      [ "Apply the skills you learned this week"
      , "Build one complete feature end-to-end"
      , "Push to GitHub with a clear README"
      , "Add the project to your resume" ] }

/-- The `buildPlan` function from `ImprovementPlan.tsx`: Critical items from
`missingCore.slice(0,3)` (2 days each), High items from
`missingCore.slice(3,5)` (1 day each), Medium items from
`missingOptional.slice(0,2)` (1 day each), then the final project item. -/
def buildPlan (missingCore missingOptional : List String) (role : String) :
    List PlanItem :=
  let st0 : List PlanItem × Nat := ([], 1)
  let st1 := (missingCore.take 3).foldl
    (fun st s => addItem st s Priority.Critical 2) st0
  let st2 := ((missingCore.drop 3).take 2).foldl
    (fun st s => addItem st s Priority.High 1) st1
  let st3 := (missingOptional.take 2).foldl
    (fun st s => addItem st s Priority.Medium 1) st2
  st3.1 ++ [projectItem role st3.2]

/-! ### Skill graph model: node and edge building from `SkillGraphViz.tsx` -/

inductive NodeType
  | center
  | detected
  | missingCore
  | missingOptional
deriving DecidableEq

/-- A graph node's identity data (`id`, `label`, `type`).  The source also
stores the Cartesian position `x, y` and visual radius `r`; the position is
`polar` applied at the ring radius and the angle given by `innerAngle` /
`middleAngle` / `outerAngle` below, and is kept separate so that the identity
layer stays fully computable. -/
structure GNode where
  id : String
  label : String
  type : NodeType
deriving DecidableEq

/-- Edge kinds: `has` (center → detected) and `needs` (prerequisite →
dependent). -/
inductive EdgeType
  | has
  | needs
deriving DecidableEq

/-- An edge; source field names are `from`/`to` (`from` is a Lean keyword). -/
structure GEdge where
  fromId : String
  toId : String
  type : EdgeType
deriving DecidableEq

/-- Node construction: the fixed center node `"you"`, then one node per
retained skill — `detected.slice(0,10)`, `missingCore.slice(0,6)`,
`missingOptional.slice(0,5)` — in push order, with no deduplication. -/
def buildNodes (detected missingCore missingOptional : List String) :
    List GNode :=
  let innerSkills := detected.take 10
  let coreMissing := missingCore.take 6
  let optMissing := missingOptional.take 5
  ⟨"you", "You", NodeType.center⟩ ::
    (innerSkills.map fun s => ⟨s, s, NodeType.detected⟩)
    ++ (coreMissing.map fun s => ⟨s, s, NodeType.missingCore⟩)
    ++ (optMissing.map fun s => ⟨s, s, NodeType.missingOptional⟩)

/-- The source's `allSkillIds`: the set of node ids (as a list; membership
via `∈` mirrors `Set.has`). -/
def nodeIds (detected missingCore missingOptional : List String) :
    List String :=
  (buildNodes detected missingCore missingOptional).map GNode.id

/-- Edge construction: a `has` edge from `"you"` to every retained detected
skill, then for each prerequisite-map entry `(skill, prereqs)` a `needs` edge
`p → skill` for each `p ∈ prereqs`, kept only when both `skill` and `p` are
node ids. -/
def buildEdges (detected missingCore missingOptional : List String)
    (dependencies : List (String × List String)) : List GEdge :=
  let innerSkills := detected.take 10
  let ids := nodeIds detected missingCore missingOptional
  (innerSkills.map fun s => ⟨"you", s, EdgeType.has⟩)
    ++ dependencies.flatMap fun e =>
        if e.1 ∈ ids then
          e.2.filterMap fun p =>
            if p ∈ ids then some ⟨p, e.1, EdgeType.needs⟩ else none
        else []

/-! ### Radial layout angles (`SkillGraphViz.tsx` lines building each ring)

The source computes each ring node's position as
`polar(cx, cy, radius, angle)`; the angles are rational so they are kept in
`ℚ`, the trigonometric conversion `polar` is over `ℝ`. -/

/-- Inner ring angle: `(i / innerSkills.length) * 360` (only evaluated with
`0 < len`). -/
def innerAngle (len i : Nat) : ℚ := ((i : ℚ) / (len : ℚ)) * 360

/-- Middle ring angle: `offset + (i / Math.max(coreMissing.length,1)) * 360`
with `offset = innerSkills.length > 0 ? 10 : 0`. -/
def middleAngle (innerLen coreLen i : Nat) : ℚ :=
  (if 0 < innerLen then 10 else 0) + ((i : ℚ) / (max coreLen 1 : ℚ)) * 360

/-- Outer ring angle: `20 + (i / Math.max(optMissing.length,1)) * 360`. -/
def outerAngle (optLen i : Nat) : ℚ :=
  20 + ((i : ℚ) / (max optLen 1 : ℚ)) * 360

/-- The source's `polar(cx, cy, r, angleDeg)`: rotate so 0° points up, then the standard
polar-to-Cartesian transform. -/
noncomputable def polar (cx cy r angleDeg : ℝ) : ℝ × ℝ :=
  let rad := (angleDeg - 90) * Real.pi / 180
  (cx + r * Real.cos rad, cy + r * Real.sin rad)

/-! ### Viewport controller (`Layout.tsx` pan/zoom graph variant) -/

structure View where
  x : ℚ
  y : ℚ
  scale : ℚ
deriving DecidableEq

/-- Source: `const zoomSpeed = 0.0015`. -/
def zoomSpeed : ℚ := 0.0015

/-- The wheel handler `handleWheelNative`: `scale := clamp(scale - deltaY * zoomSpeed, 0.35, 3)`
via `Math.min(Math.max(…, 0.35), 3)`. -/
def handleWheelNative (v : View) (deltaY : ℚ) : View :=
  { v with scale := min (max (v.scale - deltaY * zoomSpeed) 0.35) 3 }

/-- Pan: `handleMouseMove` while dragging: translate by the raw pointer delta. -/
def handleMouseMove (v : View) (dx dy : ℚ) : View :=
  { v with x := v.x + dx, y := v.y + dy }

/-- The reset button restores `{ x: 0, y: 0, scale: 0.85 }`. -/
def resetView : View := { x := 0, y := 0, scale := 0.85 }

/-! ### Gap-analysis page (`SkillGap.tsx`)

`coreMissing` / `optMissing` filter out mastered skills with the exact
(case-sensitive) `Array.includes` test; `detected` appends the mastered list
to the detected skills; `gaps` lists core gaps as Critical and optional gaps
as High for the first two, Medium after. -/

def skillGapCoreMissing (missingCoreSkills masteredSkills : List String) :
    List String :=
  missingCoreSkills.filter fun s => !(masteredSkills.contains s)

def skillGapOptMissing (missingOptionalSkills masteredSkills : List String) :
    List String :=
  missingOptionalSkills.filter fun s => !(masteredSkills.contains s)

def skillGapDetected (detectedSkills masteredSkills : List String) :
    List String :=
  detectedSkills ++ masteredSkills

/-- The "Active Priority Gaps" rows: `(skill, priority)` pairs. -/
def skillGapGaps (missingCoreSkills missingOptionalSkills
    masteredSkills : List String) : List (String × Priority) :=
  ((skillGapCoreMissing missingCoreSkills masteredSkills).map
      fun s => (s, Priority.Critical))
    ++ ((skillGapOptMissing missingOptionalSkills masteredSkills).enum.map
      fun is => (is.2, if is.1 < 2 then Priority.High else Priority.Medium))

/-! ### Session state and mastery mutations

State from `ResumeContext` (`masteredSkills`, `completedTasks`,
`dailyCommitment`) together with the events that mutate it:
`markSkillMastered`, `toggleTask`, `setDailyCommitment`, `clear`, and the
quiz-finish path of `StudyHub.handleAnswer`, which calls
`onVerified(skill) = markSkillMastered(skill)` exactly when every answer
matches its question's `correct_index`. -/

structure Question where
  question : String
  options : List String
  correct_index : Nat
deriving DecidableEq

/-- Source: `newAns.filter((a, i) => a === quiz.questions[i].correct_index).length`
(an index beyond the question list never counts, as in JS where
`questions[i]` is `undefined`). -/
def quizScore (questions : List Question) (answers : List Nat) : Nat :=
  (answers.enum.filter fun ia =>
    match questions.get? ia.1 with
    | some q => ia.2 == q.correct_index
    | none => false).length

/-- The `markSkillMastered` action from `ResumeContext`: append the skill unless already
present. -/
def markSkillMastered (prev : List String) (skill : String) : List String :=
  if skill ∈ prev then prev else prev ++ [skill]

structure SessionState where
  masteredSkills : List String
  completedTasks : List String
  dailyCommitment : Nat
deriving DecidableEq

inductive SessionEvent
  | quizFinish (skill : String) (questions : List Question)
      (answers : List Nat)
  | manualMark (skill : String)
  | toggleTask (taskId : String)
  | setDailyCommitment (hours : Nat)
  | clearAll
deriving DecidableEq

/-- One session step.  `quizFinish` adds the skill to the mastery set iff the
score equals the question count (`StudyHub.handleAnswer` →
`onVerified` → `markSkillMastered`); `manualMark` is a direct
`markSkillMastered` call; `clearAll` is `ResumeContext.clear` (mastery
emptied, completed tasks emptied, daily commitment back to the default 2). -/
def stepSession (s : SessionState) : SessionEvent → SessionState
  | SessionEvent.quizFinish skill questions answers =>
      if quizScore questions answers = questions.length then
        { s with masteredSkills := markSkillMastered s.masteredSkills skill }
      else s
  | SessionEvent.manualMark skill =>
      { s with masteredSkills := markSkillMastered s.masteredSkills skill }
  | SessionEvent.toggleTask taskId =>
      { s with completedTasks :=
          if taskId ∈ s.completedTasks then
            s.completedTasks.filter fun t => t != taskId
          else s.completedTasks ++ [taskId] }
  | SessionEvent.setDailyCommitment hours =>
      { s with dailyCommitment := hours }
  | SessionEvent.clearAll =>
      { masteredSkills := [], completedTasks := [], dailyCommitment := 2 }

/-! ### Spec-modelled scheduler bucketing and mastery gate

The repository snapshot contains no `distribute` day-bucket packer and no
per-level lock state machine; only their collaborators (the task list, the
`dailyCommitment` value, the mastered-skill set) are in the code.  They are
modelled here from the specification text (§4.4, §4.5). -/

/-- Modelled from the spec: the scheduler's `PlanTask` (§3) — id, source
skill name, priority tier, gating level, estimated duration in minutes; the
repository snapshot has no such record, only the display items above. -/
structure SPlanTask where
  id : String
  skill : String
  priority : Priority
  level : Nat
  duration : Nat
deriving DecidableEq

/-- Modelled from the spec: the single-pass greedy packer loop of
`distribute` (§4.4).  `cur`/`total` are the current day's tasks and running
total; a task whose addition would exceed the budget starts a new day only
when the current day is non-empty. -/
def distributeAux (dailyMinutes : Nat) :
    List SPlanTask → List SPlanTask → Nat → List (List SPlanTask)
  | [], cur, _ => if cur = [] then [] else [cur]
  | t :: ts, cur, total =>
      if dailyMinutes < total + t.duration ∧ cur ≠ [] then
        cur :: distributeAux dailyMinutes ts [t] t.duration
      else
        distributeAux dailyMinutes ts (cur ++ [t]) (total + t.duration)

/-- Modelled from the spec: `distribute(tasks, dailyMinutes) -> DayBucket[]`
(§4.4); the repository snapshot contains no implementation of it. -/
def distribute (tasks : List SPlanTask) (dailyMinutes : Nat) :
    List (List SPlanTask) :=
  distributeAux dailyMinutes tasks [] 0

/-- A mastery-gate task: the data the gate consumes (source skill, level). -/
structure GateTask where
  skill : String
  level : Nat
deriving DecidableEq

/-- Modelled from the spec: the per-level gate (§4.5) — level 1 is always
open; level `L > 1` is open iff every task whose level is `L - 1` has its
skill in the mastery set.  The repository snapshot has no such gate code. -/
def levelOpen (tasks : List GateTask) (mastery : List String) (L : Nat) :
    Bool :=
  if L ≤ 1 then true
  else tasks.all fun t =>
    if t.level = L - 1 then mastery.contains t.skill else true

inductive TaskState
  | locked
  | opened
  | mastered
deriving DecidableEq

/-- Modelled from the spec: a task's effective UI state (§4.5), precedence
`mastered > locked > open` (`open` is a Lean keyword, hence `opened`). -/
def effectiveState (tasks : List GateTask) (mastery : List String)
    (t : GateTask) : TaskState :=
  if t.skill ∈ mastery then TaskState.mastered
  else if levelOpen tasks mastery t.level then TaskState.opened
  else TaskState.locked

/-! ### Theorems -/

/-- Projection of a plan item to the data the scheduler claims are about:
source skill, priority tier, duration string. -/
def itemProj (t : PlanItem) : String × Priority × String :=
  (t.skill, t.priority, t.duration)

/-- Folding `addItem` over a skill list appends one item per skill, each with
the given priority and the duration string `days * 90` minutes. -/
theorem foldl_addItem_proj (p : Priority) (days : Nat) :
    ∀ (l : List String) (acc : List PlanItem) (day : Nat),
      ((l.foldl (fun st s => addItem st s p days) (acc, day)).1).map itemProj
        = acc.map itemProj
          ++ l.map (fun s => (s, p, toString (days * 90) ++ " min est."))
  | [], acc, day => by simp
  | s :: l, acc, day => by
      rw [List.foldl_cons]
      have h := foldl_addItem_proj p days l
        (addItem (acc, day) s p days).1 (addItem (acc, day) s p days).2
      rw [Prod.mk.eta] at h
      rw [h]
      simp [addItem, itemProj]

/-- C1 (amended): `buildPlan` emits, in order, Critical tasks from the first
three missing-core skills with duration `"180 min est."`, then High tasks from
`missingCore[3..5)` (at most two) with `"90 min est."`, then Medium tasks from
the first two missing-optional skills with `"90 min est."`, and finally one
High portfolio-project task with duration `"3–4 hr"`. -/
theorem buildPlan_tiers (missingCore missingOptional : List String)
    (role : String) :
    (buildPlan missingCore missingOptional role).map itemProj
      = (missingCore.take 3).map
          (fun s => (s, Priority.Critical, "180 min est."))
        ++ ((missingCore.drop 3).take 2).map
          (fun s => (s, Priority.High, "90 min est."))
        ++ (missingOptional.take 2).map
          (fun s => (s, Priority.Medium, "90 min est."))
        ++ [("project", Priority.High, "3–4 hr")] := by
  simp only [buildPlan]
  set st1 := (missingCore.take 3).foldl
    (fun st s => addItem st s Priority.Critical 2) ([], 1) with hst1
  set st2 := ((missingCore.drop 3).take 2).foldl
    (fun st s => addItem st s Priority.High 1) st1 with hst2
  set st3 := (missingOptional.take 2).foldl
    (fun st s => addItem st s Priority.Medium 1) st2 with hst3
  have e1 := foldl_addItem_proj Priority.Critical 2 (missingCore.take 3) [] 1
  have e2 := foldl_addItem_proj Priority.High 1 ((missingCore.drop 3).take 2)
    st1.1 st1.2
  have e3 := foldl_addItem_proj Priority.Medium 1 (missingOptional.take 2)
    st2.1 st2.2
  rw [Prod.mk.eta] at e2 e3
  rw [← hst1] at e1
  rw [← hst2] at e2
  rw [← hst3] at e3
  rw [List.map_append, e3, e2, e1]
  simp [itemProj, projectItem]
  rfl

/-- C1 (counterexample): with `missingCore = []`, `missingOptional = ["x"]`
the claimed tiering (Critical ≤ 3, then High ≤ 3, then Medium ≤ 4, with
Medium tasks of 60 minutes and nothing after them) would produce exactly one
Medium 60-minute task; `buildPlan` instead produces a 90-minute Medium task
followed by a High project task. -/
theorem buildPlan_claim_false :
    ¬ ((buildPlan [] ["x"] "r").map itemProj
        = [("x", Priority.Medium, "60 min est.")]) := by
  decide

/-- C2 (counterexample): with both missing lists empty the task list is not
empty — `buildPlan` still appends the final portfolio-project task. -/
theorem buildPlan_empty_not_empty : ¬ (buildPlan [] [] "r" = []) := by
  decide

/-- C2 (amended): with both missing lists empty, `buildPlan` produces exactly
one task (the High portfolio-project task), the spec-modelled `distribute` of
an empty task list produces zero day buckets, and the graph built from empty
inputs contains only the center node. -/
theorem empty_inputs_plan_and_graph (role : String) (b : Nat) :
    (buildPlan [] [] role).map itemProj
        = [("project", Priority.High, "3–4 hr")]
      ∧ distribute [] b = []
      ∧ buildNodes [] [] [] = [⟨"you", "You", NodeType.center⟩] :=
  ⟨rfl, rfl, rfl⟩

/-- The packer loop never loses or reorders a task: the buckets flatten back
to the pending tasks appended to the current day. -/
theorem distributeAux_flatten (b : Nat) :
    ∀ (ts cur : List SPlanTask) (total : Nat),
      (distributeAux b ts cur total).flatten = cur ++ ts
  | [], cur, total => by
      by_cases h : cur = [] <;> simp [distributeAux, h]
  | t :: ts, cur, total => by
      by_cases h : b < total + t.duration ∧ cur ≠ []
      · simp [distributeAux, if_pos h, distributeAux_flatten b ts [t]]
      · simp [distributeAux, if_neg h, distributeAux_flatten b ts (cur ++ [t])]

/-- Budget invariant of the packer loop: assuming the running total is the
current day's summed duration and respects the budget whenever the day
already has two tasks, every emitted bucket with more than one task sums to
at most the budget. -/
theorem distributeAux_buckets (b : Nat) :
    ∀ (ts cur : List SPlanTask) (total : Nat),
      total = (cur.map SPlanTask.duration).sum →
      (1 < cur.length → total ≤ b) →
      ∀ bucket ∈ distributeAux b ts cur total, 1 < bucket.length →
        (bucket.map SPlanTask.duration).sum ≤ b
  | [], cur, total => by
      intro htot hb bucket hmem hlen
      by_cases h : cur = []
      · simp [distributeAux, h] at hmem
      · simp only [distributeAux, if_neg h, List.mem_singleton] at hmem
        subst hmem
        exact htot ▸ hb hlen
  | t :: ts, cur, total => by
      intro htot hb bucket hmem hlen
      by_cases h : b < total + t.duration ∧ cur ≠ []
      · simp only [distributeAux, if_pos h, List.mem_cons] at hmem
        rcases hmem with rfl | hmem
        · exact htot ▸ hb hlen
        · exact distributeAux_buckets b ts [t] t.duration (by simp)
            (by simp) bucket hmem hlen
      · simp only [distributeAux, if_neg h] at hmem
        refine distributeAux_buckets b ts (cur ++ [t]) (total + t.duration)
          (by simp [htot]) ?_ bucket hmem hlen
        intro hlen2
        by_cases hc : cur = []
        · subst hc; simp at hlen2
        · have hle : ¬ b < total + t.duration := fun hlt => h ⟨hlt, hc⟩
          omega

/-- C3: the spec-modelled `distribute` places every task in exactly one day
bucket in generation order (the buckets flatten back to the task list), any
bucket holding more than one task sums to at most `dailyMinutes`, and a task
whose duration alone exceeds the budget sits alone in its bucket. -/
theorem distribute_greedy (tasks : List SPlanTask) (b : Nat) :
    (distribute tasks b).flatten = tasks
    ∧ (∀ bucket ∈ distribute tasks b, 1 < bucket.length →
        (bucket.map SPlanTask.duration).sum ≤ b)
    ∧ (∀ bucket ∈ distribute tasks b, ∀ t ∈ bucket, b < t.duration →
        bucket = [t]) := by
  refine ⟨distributeAux_flatten b tasks [] 0,
    distributeAux_buckets b tasks [] 0 rfl (by simp), ?_⟩
  intro bucket hmem t ht hdur
  have hsum := distributeAux_buckets b tasks [] 0 rfl (by simp) bucket hmem
  have hle : t.duration ≤ (bucket.map SPlanTask.duration).sum :=
    List.single_le_sum (fun x _ => Nat.zero_le x) _
      (List.mem_map_of_mem SPlanTask.duration ht)
  have hlen : bucket.length ≤ 1 := by
    by_contra hl
    push_neg at hl
    have hsb := hsum hl
    omega
  have hpos : 0 < bucket.length := List.length_pos.mpr (List.ne_nil_of_mem ht)
  obtain ⟨a, ha⟩ := List.length_eq_one.mp (show bucket.length = 1 by omega)
  subst ha
  simp only [List.mem_singleton] at ht
  rw [ht]

/-- C3 (witness): a concrete run — tasks of 120, 120 and 60 minutes under a
180-minute budget — flattens back to the input, and the two-task bucket
`[t2, t3]` respects the budget. -/
theorem distribute_greedy_witness :
    ((distribute [⟨"t1", "a", Priority.Critical, 1, 120⟩,
        ⟨"t2", "b", Priority.Critical, 1, 120⟩,
        ⟨"t3", "c", Priority.Medium, 3, 60⟩] 180).flatten
      = [⟨"t1", "a", Priority.Critical, 1, 120⟩,
        ⟨"t2", "b", Priority.Critical, 1, 120⟩,
        ⟨"t3", "c", Priority.Medium, 3, 60⟩])
    ∧ (([⟨"t2", "b", Priority.Critical, 1, 120⟩,
        ⟨"t3", "c", Priority.Medium, 3, 60⟩] : List SPlanTask).map
          SPlanTask.duration).sum ≤ 180
    ∧ ([⟨"t4", "d", Priority.Critical, 1, 500⟩] : List SPlanTask)
        = [⟨"t4", "d", Priority.Critical, 1, 500⟩] := by
  refine ⟨(distribute_greedy _ 180).1,
    (distribute_greedy [⟨"t1", "a", Priority.Critical, 1, 120⟩,
        ⟨"t2", "b", Priority.Critical, 1, 120⟩,
        ⟨"t3", "c", Priority.Medium, 3, 60⟩] 180).2.1
      [⟨"t2", "b", Priority.Critical, 1, 120⟩,
        ⟨"t3", "c", Priority.Medium, 3, 60⟩] (by decide) (by decide),
    (distribute_greedy [⟨"t4", "d", Priority.Critical, 1, 500⟩] 100).2.2
      [⟨"t4", "d", Priority.Critical, 1, 500⟩] (by decide)
      ⟨"t4", "d", Priority.Critical, 1, 500⟩ (by decide) (by decide)⟩

/-- C4 (amended): level 1 is always open; level `L > 1` is open exactly when
every task of level `L - 1` has its skill in the mastery set; while some
level-1 task skill is unmastered, every level-2 task that is not itself
individually mastered is `locked`; once all level-1 task skills are mastered,
every level-2 task is `opened`, or `mastered` when its own skill is in the
mastery set. -/
theorem mastery_gate (tasks : List GateTask) (m : List String) (L : Nat)
    (t : GateTask) :
    levelOpen tasks m 1 = true
    ∧ (1 < L → (levelOpen tasks m L = true
        ↔ ∀ u ∈ tasks, u.level = L - 1 → u.skill ∈ m))
    ∧ ((¬ ∀ u ∈ tasks, u.level = 1 → u.skill ∈ m) → t.level = 2 →
        t.skill ∉ m → effectiveState tasks m t = TaskState.locked)
    ∧ ((∀ u ∈ tasks, u.level = 1 → u.skill ∈ m) → t.level = 2 →
        effectiveState tasks m t
          = if t.skill ∈ m then TaskState.mastered else TaskState.opened) := by
  have hopen : ∀ K, 1 < K → (levelOpen tasks m K = true
      ↔ ∀ u ∈ tasks, u.level = K - 1 → u.skill ∈ m) := by
    intro K hK
    rw [levelOpen, if_neg (by omega), List.all_eq_true]
    constructor
    · intro hall u hu hlvl
      have := hall u hu
      rw [if_pos hlvl] at this
      simpa using this
    · intro hall u hu
      by_cases hlvl : u.level = K - 1
      · rw [if_pos hlvl]
        simpa using hall u hu hlvl
      · rw [if_neg hlvl]
  refine ⟨by rw [levelOpen, if_pos (by omega)], hopen L, ?_, ?_⟩
  · intro hnot hlvl hnm
    rw [effectiveState, if_neg hnm, if_neg ?_]
    rw [hlvl]
    intro hop
    exact hnot (by simpa using (hopen 2 (by omega)).mp hop)
  · intro hall hlvl
    by_cases hm : t.skill ∈ m
    · rw [effectiveState, if_pos hm, if_pos hm]
    · rw [effectiveState, if_neg hm, if_neg hm, if_pos ?_]
      rw [hlvl]
      exact (hopen 2 (by omega)).mpr (by simpa using hall)

/-- C4 (counterexample): with a level-1 task `"a"` unmastered and a level-2
task `"b"` whose own skill is in the mastery set, the level-2 task's
effective state is `mastered`, not `locked` as the claim states. -/
theorem mastery_gate_claim_false :
    (¬ ∀ u ∈ ([⟨"a", 1⟩, ⟨"b", 2⟩] : List GateTask),
        u.level = 1 → u.skill ∈ ["b"])
    ∧ effectiveState [⟨"a", 1⟩, ⟨"b", 2⟩] ["b"] ⟨"b", 2⟩
        ≠ TaskState.locked := by
  constructor
  · decide
  · decide

/-- C4 (witness): with the level-1 skill `"a"` mastered, the level-2 task
`"b"` (not itself mastered) is `opened`. -/
theorem mastery_gate_witness :
    effectiveState [⟨"a", 1⟩, ⟨"b", 2⟩] ["a"] ⟨"b", 2⟩
      = TaskState.opened := by
  have h := (mastery_gate [⟨"a", 1⟩, ⟨"b", 2⟩] ["a"] 2 ⟨"b", 2⟩).2.2.2
    (by decide) (by decide)
  exact h.trans (by decide)

/-- One wheel update always leaves the scale inside `[0.35, 3]`. -/
theorem handleWheel_scale_mem (v : View) (d : ℚ) :
    0.35 ≤ (handleWheelNative v d).scale ∧ (handleWheelNative v d).scale ≤ 3 :=
  ⟨le_min (le_max_right _ _) (by norm_num), min_le_right _ _⟩

/-- Folding wheel updates preserves the `[0.35, 3]` bound. -/
theorem foldl_handleWheel_bounds :
    ∀ (ds : List ℚ) (v : View),
      0.35 ≤ v.scale ∧ v.scale ≤ 3 →
      0.35 ≤ (ds.foldl handleWheelNative v).scale
        ∧ (ds.foldl handleWheelNative v).scale ≤ 3
  | [], _, h => h
  | d :: ds, v, _ => by
      rw [List.foldl_cons]
      exact foldl_handleWheel_bounds ds _ (handleWheel_scale_mem v d)

/-- C5: every wheel update clamps the zoom scale into the closed interval
`[0.35, 3]`; an update whose raw value `scale - delta * zoomSpeed` falls
below `0.35` (above `3`) yields exactly `0.35` (exactly `3`); and after any
non-empty sequence of wheel updates the scale lies in `[0.35, 3]`. -/
theorem viewport_scale_clamped (v : View) (d : ℚ) (ds : List ℚ) :
    (0.35 ≤ (handleWheelNative v d).scale
      ∧ (handleWheelNative v d).scale ≤ 3)
    ∧ (v.scale - d * zoomSpeed < 0.35 →
        (handleWheelNative v d).scale = 0.35)
    ∧ (3 < v.scale - d * zoomSpeed →
        (handleWheelNative v d).scale = 3)
    ∧ (ds ≠ [] →
        0.35 ≤ (ds.foldl handleWheelNative v).scale
          ∧ (ds.foldl handleWheelNative v).scale ≤ 3) := by
  refine ⟨handleWheel_scale_mem v d, ?_, ?_, ?_⟩
  · intro h
    show min (max (v.scale - d * zoomSpeed) 0.35) 3 = 0.35
    rw [max_eq_right h.le, min_eq_left (by norm_num)]
  · intro h
    show min (max (v.scale - d * zoomSpeed) 0.35) 3 = 3
    rw [max_eq_left (le_trans (by norm_num) h.le), min_eq_right h.le]
  · intro hne
    cases ds with
    | nil => exact absurd rfl hne
    | cons d0 ds0 =>
        rw [List.foldl_cons]
        exact foldl_handleWheel_bounds ds0 _ (handleWheel_scale_mem v d0)

/-- C5 (witness): concrete wheel deltas — a large positive delta from scale 1
clamps to exactly `0.35`, a large negative delta clamps to exactly `3`, and a
two-step sequence stays within the bounds. -/
theorem viewport_scale_clamped_witness :
    (handleWheelNative ⟨0, 0, 1⟩ 1000).scale = 0.35
    ∧ (handleWheelNative ⟨0, 0, 1⟩ (-2000)).scale = 3
    ∧ 0.35 ≤ (([50, -4000] : List ℚ).foldl handleWheelNative ⟨0, 0, 1⟩).scale := by
  refine ⟨(viewport_scale_clamped ⟨0, 0, 1⟩ 1000 []).2.1 (by norm_num [zoomSpeed]),
    (viewport_scale_clamped ⟨0, 0, 1⟩ (-2000) []).2.2.1 (by norm_num [zoomSpeed]),
    ((viewport_scale_clamped ⟨0, 0, 1⟩ 0 [50, -4000]).2.2.2 (by simp)).1⟩

/-- Membership of a `needs` edge in the dependency part of the edge list. -/
theorem mem_depEdges (ids : List String)
    (deps : List (String × List String)) (p s : String) :
    ((⟨p, s, EdgeType.needs⟩ : GEdge) ∈ deps.flatMap fun e =>
        if e.1 ∈ ids then
          e.2.filterMap fun q =>
            if q ∈ ids then some ⟨q, e.1, EdgeType.needs⟩ else none
        else [])
      ↔ ∃ e ∈ deps, e.1 = s ∧ p ∈ e.2 ∧ s ∈ ids ∧ p ∈ ids := by
  rw [List.mem_flatMap]
  constructor
  · rintro ⟨e, he, hmem⟩
    by_cases h1 : e.1 ∈ ids
    · rw [if_pos h1, List.mem_filterMap] at hmem
      obtain ⟨q, hq, hq2⟩ := hmem
      by_cases h2 : q ∈ ids
      · rw [if_pos h2, Option.some_inj] at hq2
        obtain ⟨rfl, rfl, -⟩ := GEdge.mk.injEq .. ▸ hq2
        exact ⟨e, he, rfl, hq, h1, h2⟩
      · rw [if_neg h2] at hq2
        exact absurd hq2 (Option.noConfusion)
    · rw [if_neg h1] at hmem
      exact absurd hmem (List.not_mem_nil _)
  · rintro ⟨e, he, rfl, hp, hs, hpids⟩
    refine ⟨e, he, ?_⟩
    rw [if_pos hs, List.mem_filterMap]
    exact ⟨p, hp, by rw [if_pos hpids]⟩

/-- C6: a `needs` edge `p → s` is in the built edge list exactly when some
prerequisite-map entry lists `p` as a prerequisite of `s` and both `s` and
`p` are among the retained node ids; and (Scenario C) the map
`{kubernetes: [docker, linux]}` over a graph retaining `kubernetes` and
`docker` but not `linux` yields exactly the single edge
`docker → kubernetes`. -/
theorem needs_edge_pruning (d mc mo : List String)
    (deps : List (String × List String)) (p s : String) :
    ((⟨p, s, EdgeType.needs⟩ : GEdge) ∈ buildEdges d mc mo deps
      ↔ (∃ e ∈ deps, e.1 = s ∧ p ∈ e.2)
          ∧ s ∈ nodeIds d mc mo ∧ p ∈ nodeIds d mc mo)
    ∧ buildEdges [] ["kubernetes", "docker"] []
        [("kubernetes", ["docker", "linux"])]
        = [⟨"docker", "kubernetes", EdgeType.needs⟩] := by
  constructor
  · rw [buildEdges, List.mem_append]
    constructor
    · rintro (hhas | hdep)
      · rw [List.mem_map] at hhas
        obtain ⟨a, -, ha⟩ := hhas
        exact absurd (congrArg GEdge.type ha) (by simp)
      · obtain ⟨e, he, rfl, hp, hs, hpids⟩ := (mem_depEdges _ deps p s).mp hdep
        exact ⟨⟨e, he, rfl, hp⟩, hs, hpids⟩
    · rintro ⟨⟨e, he, rfl, hp⟩, hs, hpids⟩
      exact Or.inr ((mem_depEdges _ deps p e.1).mpr ⟨e, he, rfl, hp, hs, hpids⟩)
  · rfl

/-- C7 (counterexample): a skill name appearing in both the detected and the
missing-core input lists yields two distinct ring nodes with the same id —
the builder performs no deduplication. -/
theorem buildNodes_dedup_false :
    ¬ (((buildNodes ["docker"] ["docker"] []).map GNode.id).Nodup) := by
  decide

/-- C7 (amended): the built node ids are exactly the center `"you"` followed
by the retained (capped) detected, missing-core and missing-optional entries
in input order, with duplicates preserved — no deduplication of any kind; the
ids are pairwise distinct exactly when the retained inputs avoid `"you"` and
are themselves duplicate-free. -/
theorem buildNodes_ids (d mc mo : List String) :
    (buildNodes d mc mo).map GNode.id
      = "you" :: (d.take 10 ++ mc.take 6 ++ mo.take 5)
    ∧ ("you" ∉ d.take 10 ++ mc.take 6 ++ mo.take 5 →
        (d.take 10 ++ mc.take 6 ++ mo.take 5).Nodup →
        ((buildNodes d mc mo).map GNode.id).Nodup) := by
  have hids : (buildNodes d mc mo).map GNode.id
      = "you" :: (d.take 10 ++ mc.take 6 ++ mo.take 5) := by
    simp [buildNodes, Function.comp_def, List.map_id]
  refine ⟨hids, fun hyou hnd => ?_⟩
  rw [hids, List.nodup_cons]
  exact ⟨hyou, hnd⟩

/-- C7 (witness): with disjoint duplicate-free inputs the node ids are
duplicate-free. -/
theorem buildNodes_ids_witness :
    ((buildNodes ["a"] ["b"] ["c"]).map GNode.id).Nodup :=
  (buildNodes_ids ["a"] ["b"] ["c"]).2 (by decide) (by decide)

/-- C8 (counterexample): the middle ring's starting offset is not a fixed
angular offset — it is `0` when the inner ring is empty and `10` otherwise —
and the outer ring's first node sits at `20°`, not at the top of its ring as
the claim's "first node appears at the top" reading requires. -/
theorem radial_layout_claim_false :
    middleAngle 0 1 0 = 0 ∧ middleAngle 1 1 0 = 10 ∧ outerAngle 1 0 ≠ 0 := by
  refine ⟨by norm_num [middleAngle], by norm_num [middleAngle], ?_⟩
  norm_num [outerAngle]

/-- C8 (amended): within each ring nodes advance by equal angular increments
of `360° / ringCount`; the inner ring starts at `0°`, the middle ring at
`10°` when the inner ring is non-empty and at `0°` otherwise, and the outer
ring at the fixed `20°`; the polar conversion rotates the zero angle to point
up, so a node at angle `0°` lies exactly at the top of its ring. -/
theorem radial_layout (il cl ol i : Nat) (cx cy r : ℝ) :
    (0 < il → innerAngle il (i + 1) - innerAngle il i = 360 / il)
    ∧ middleAngle il cl (i + 1) - middleAngle il cl i = 360 / (max cl 1 : Nat)
    ∧ outerAngle ol (i + 1) - outerAngle ol i = 360 / (max ol 1 : Nat)
    ∧ innerAngle il 0 = 0
    ∧ middleAngle 0 cl 0 = 0
    ∧ (0 < il → middleAngle il cl 0 = 10)
    ∧ outerAngle ol 0 = 20
    ∧ polar cx cy r 0 = (cx, cy - r) := by
  have hmax : ∀ n : Nat, ((max n 1 : Nat) : ℚ) ≠ 0 := by
    intro n
    have : 0 < max n 1 := by omega
    exact_mod_cast this.ne'
  refine ⟨?_, ?_, ?_, by simp [innerAngle], by simp [middleAngle],
    fun h => by simp [middleAngle, h], by simp [outerAngle], ?_⟩
  · intro h
    have hil : (il : ℚ) ≠ 0 := Nat.cast_ne_zero.mpr h.ne'
    rw [innerAngle, innerAngle]
    push_cast
    field_simp
    ring
  · rw [middleAngle, middleAngle]
    have := hmax cl
    push_cast at this ⊢
    field_simp
    ring
  · rw [outerAngle, outerAngle]
    have := hmax ol
    push_cast at this ⊢
    field_simp
    ring
  · rw [polar]
    have h90 : ((0 : ℝ) - 90) * Real.pi / 180 = -(Real.pi / 2) := by ring
    rw [h90, Real.cos_neg, Real.sin_neg, Real.cos_pi_div_two,
      Real.sin_pi_div_two]
    simp [Prod.ext_iff]
    ring

/-- C8 (witness): concrete increments and offsets — an inner ring of four
nodes advances by `90°` per node, and a middle ring under a non-empty inner
ring starts at `10°`. -/
theorem radial_layout_witness :
    innerAngle 4 (0 + 1) - innerAngle 4 0 = 360 / 4
    ∧ middleAngle 4 6 0 = 10 :=
  ⟨by
    have h := (radial_layout 4 6 5 0 0 0 1).1 (by norm_num)
    simpa using h,
   (radial_layout 4 6 5 0 0 0 1).2.2.2.2.2.1 (by norm_num)⟩

/-- Membership after `markSkillMastered`: the set gains exactly the marked
skill. -/
theorem mem_markSkillMastered (prev : List String) (skill m : String) :
    m ∈ markSkillMastered prev skill ↔ m ∈ prev ∨ m = skill := by
  rw [markSkillMastered]
  by_cases h : skill ∈ prev
  · rw [if_pos h]
    constructor
    · exact Or.inl
    · rintro (hm | rfl)
      · exact hm
      · exact h
  · rw [if_neg h]
    simp

/-- C9: a skill enters the mastery set only through a perfect quiz score
(`quizScore = questions.length`, i.e. every answer correct) or the explicit
manual mark action; a quiz finish with any non-perfect score leaves the whole
session state unchanged; a perfect quiz or a manual mark does add the skill;
and a mastered skill survives every event except the global `clear`. -/
theorem mastery_mutation (s : SessionState) (e : SessionEvent) (m : String) :
    (m ∈ (stepSession s e).masteredSkills →
      m ∈ s.masteredSkills ∨ e = SessionEvent.manualMark m
        ∨ ∃ qs ans, e = SessionEvent.quizFinish m qs ans
            ∧ quizScore qs ans = qs.length)
    ∧ (∀ skill qs ans, quizScore qs ans ≠ qs.length →
        stepSession s (SessionEvent.quizFinish skill qs ans) = s)
    ∧ (∀ qs ans, quizScore qs ans = qs.length →
        m ∈ (stepSession s (SessionEvent.quizFinish m qs ans)).masteredSkills)
    ∧ m ∈ (stepSession s (SessionEvent.manualMark m)).masteredSkills
    ∧ (m ∈ s.masteredSkills → e ≠ SessionEvent.clearAll →
        m ∈ (stepSession s e).masteredSkills) := by
  refine ⟨?_, ?_, ?_, ?_, ?_⟩
  · intro hmem
    cases e with
    | quizFinish skill qs ans =>
        by_cases hsc : quizScore qs ans = qs.length
        · rw [stepSession, if_pos hsc] at hmem
          rcases (mem_markSkillMastered _ _ _).mp hmem with hm | rfl
          · exact Or.inl hm
          · exact Or.inr (Or.inr ⟨qs, ans, rfl, hsc⟩)
        · rw [stepSession, if_neg hsc] at hmem
          exact Or.inl hmem
    | manualMark skill =>
        rcases (mem_markSkillMastered _ _ _).mp hmem with hm | rfl
        · exact Or.inl hm
        · exact Or.inr (Or.inl rfl)
    | toggleTask taskId => exact Or.inl hmem
    | setDailyCommitment hours => exact Or.inl hmem
    | clearAll => exact absurd hmem (List.not_mem_nil m)
  · intro skill qs ans hsc
    rw [stepSession, if_neg hsc]
  · intro qs ans hsc
    rw [stepSession, if_pos hsc]
    exact (mem_markSkillMastered _ _ _).mpr (Or.inr rfl)
  · exact (mem_markSkillMastered _ _ _).mpr (Or.inr rfl)
  · intro hmem hne
    cases e with
    | quizFinish skill qs ans =>
        by_cases hsc : quizScore qs ans = qs.length
        · rw [stepSession, if_pos hsc]
          exact (mem_markSkillMastered _ _ _).mpr (Or.inl hmem)
        · rw [stepSession, if_neg hsc]
          exact hmem
    | manualMark skill =>
        exact (mem_markSkillMastered _ _ _).mpr (Or.inl hmem)
    | toggleTask taskId => exact hmem
    | setDailyCommitment hours => exact hmem
    | clearAll => exact absurd rfl hne

/-- C9 (witness): concretely — a partial score (1 of 2 correct) leaves the
state untouched, a perfect score adds the skill, and a mastered skill
survives a quiz event. -/
theorem mastery_mutation_witness :
    (stepSession ⟨["java"], [], 2⟩
        (SessionEvent.quizFinish "sql" [⟨"q1", [], 1⟩, ⟨"q2", [], 0⟩] [1, 1])
      = ⟨["java"], [], 2⟩)
    ∧ "sql" ∈ (stepSession ⟨["java"], [], 2⟩
        (SessionEvent.quizFinish "sql" [⟨"q1", [], 1⟩, ⟨"q2", [], 0⟩]
          [1, 0])).masteredSkills
    ∧ "java" ∈ (stepSession ⟨["java"], [], 2⟩
        (SessionEvent.quizFinish "sql" [⟨"q1", [], 1⟩, ⟨"q2", [], 0⟩]
          [1, 0])).masteredSkills :=
  ⟨(mastery_mutation ⟨["java"], [], 2⟩ SessionEvent.clearAll "sql").2.1
      "sql" [⟨"q1", [], 1⟩, ⟨"q2", [], 0⟩] [1, 1] (by decide),
   (mastery_mutation ⟨["java"], [], 2⟩ SessionEvent.clearAll "sql").2.2.1
      [⟨"q1", [], 1⟩, ⟨"q2", [], 0⟩] [1, 0] (by decide),
   (mastery_mutation ⟨["java"], [], 2⟩
      (SessionEvent.quizFinish "sql" [⟨"q1", [], 1⟩, ⟨"q2", [], 0⟩] [1, 0])
      "java").2.2.2.2 (by decide) (by decide)⟩

/-- Membership characterization for `buildNodes`. -/
theorem mem_buildNodes (d mc mo : List String) (n : GNode) :
    n ∈ buildNodes d mc mo ↔
      n = ⟨"you", "You", NodeType.center⟩
      ∨ (∃ s ∈ d.take 10, n = ⟨s, s, NodeType.detected⟩)
      ∨ (∃ s ∈ mc.take 6, n = ⟨s, s, NodeType.missingCore⟩)
      ∨ (∃ s ∈ mo.take 5, n = ⟨s, s, NodeType.missingOptional⟩) := by
  simp only [buildNodes, List.mem_cons, List.mem_append, List.mem_map,
    or_assoc]
  constructor
  · rintro (h | ⟨a, ha, rfl⟩ | ⟨a, ha, rfl⟩ | ⟨a, ha, rfl⟩)
    · exact Or.inl h
    · exact Or.inr (Or.inl ⟨a, ha, rfl⟩)
    · exact Or.inr (Or.inr (Or.inl ⟨a, ha, rfl⟩))
    · exact Or.inr (Or.inr (Or.inr ⟨a, ha, rfl⟩))
  · rintro (h | ⟨a, ha, rfl⟩ | ⟨a, ha, rfl⟩ | ⟨a, ha, rfl⟩)
    · exact Or.inl h
    · exact Or.inr (Or.inl ⟨a, ha, rfl⟩)
    · exact Or.inr (Or.inr (Or.inl ⟨a, ha, rfl⟩))
    · exact Or.inr (Or.inr (Or.inr ⟨a, ha, rfl⟩))

/-- C10 (counterexample): a mastered skill is appended after the detected
skills, so with ten detected skills it falls beyond the inner ring's display
cap of ten and is not rendered as a graph node at all. -/
theorem mastered_skill_gap_claim_false :
    "z" ∉ (buildNodes
        (skillGapDetected
          ["a0", "a1", "a2", "a3", "a4", "a5", "a6", "a7", "a8", "a9"] ["z"])
        (skillGapCoreMissing [] ["z"])
        (skillGapOptMissing [] ["z"])).map GNode.id := by
  decide

/-- C10 (amended): a mastered skill is excluded (by the exact, case-sensitive
membership test) from the core and optional missing lists and from the active
gap rows, is appended to the detected list, never appears as a missing-core
or missing-optional ring node, and is rendered as a detected inner-ring node
whenever its position in the combined detected list falls within the
inner-ring display cap of ten. -/
theorem mastered_skill_gap (detected missingCore missingOptional
    mastered : List String) (m : String) (hm : m ∈ mastered) :
    m ∉ skillGapCoreMissing missingCore mastered
    ∧ m ∉ skillGapOptMissing missingOptional mastered
    ∧ m ∈ skillGapDetected detected mastered
    ∧ (∀ pr : Priority,
        (m, pr) ∉ skillGapGaps missingCore missingOptional mastered)
    ∧ (⟨m, m, NodeType.missingCore⟩ : GNode) ∉ buildNodes
        (skillGapDetected detected mastered)
        (skillGapCoreMissing missingCore mastered)
        (skillGapOptMissing missingOptional mastered)
    ∧ (⟨m, m, NodeType.missingOptional⟩ : GNode) ∉ buildNodes
        (skillGapDetected detected mastered)
        (skillGapCoreMissing missingCore mastered)
        (skillGapOptMissing missingOptional mastered)
    ∧ (m ∈ (skillGapDetected detected mastered).take 10 →
        (⟨m, m, NodeType.detected⟩ : GNode) ∈ buildNodes
          (skillGapDetected detected mastered)
          (skillGapCoreMissing missingCore mastered)
          (skillGapOptMissing missingOptional mastered)) := by
  have hcore : m ∉ skillGapCoreMissing missingCore mastered := by
    intro h
    rw [skillGapCoreMissing, List.mem_filter] at h
    simp at h
    exact h.2 hm
  have hopt : m ∉ skillGapOptMissing missingOptional mastered := by
    intro h
    rw [skillGapOptMissing, List.mem_filter] at h
    simp at h
    exact h.2 hm
  refine ⟨hcore, hopt, List.mem_append_right detected hm, ?_, ?_, ?_, ?_⟩
  · intro pr h
    rw [skillGapGaps, List.mem_append] at h
    rcases h with h | h
    · rw [List.mem_map] at h
      obtain ⟨a, ha, heq⟩ := h
      obtain ⟨rfl, -⟩ := Prod.mk.injEq .. ▸ heq
      exact hcore ha
    · rw [List.mem_map] at h
      obtain ⟨ia, ha, heq⟩ := h
      have h2 : ia.2 = m := congrArg Prod.fst heq
      exact hopt (h2 ▸ List.snd_mem_of_mem_enum ha)
  · intro h
    rcases (mem_buildNodes _ _ _ _).mp h with h | ⟨a, -, ha⟩ | ⟨a, ha, heq⟩
      | ⟨a, -, ha⟩
    · exact absurd (congrArg GNode.type h) (by simp)
    · exact absurd (congrArg GNode.type ha) (by simp)
    · have : m = a := congrArg GNode.id heq
      exact hcore (List.mem_of_mem_take (this ▸ ha))
    · exact absurd (congrArg GNode.type ha) (by simp)
  · intro h
    rcases (mem_buildNodes _ _ _ _).mp h with h | ⟨a, -, ha⟩ | ⟨a, -, ha⟩
      | ⟨a, ha, heq⟩
    · exact absurd (congrArg GNode.type h) (by simp)
    · exact absurd (congrArg GNode.type ha) (by simp)
    · exact absurd (congrArg GNode.type ha) (by simp)
    · have : m = a := congrArg GNode.id heq
      exact hopt (List.mem_of_mem_take (this ▸ ha))
  · intro h
    exact (mem_buildNodes _ _ _ _).mpr (Or.inr (Or.inl ⟨m, h, rfl⟩))

/-- C10 (witness): a mastered skill `"z"` with one detected skill and core
gaps `["z", "b"]` is dropped from the gap lists and appears as a detected
inner-ring node. -/
theorem mastered_skill_gap_witness :
    (⟨"z", "z", NodeType.detected⟩ : GNode) ∈ buildNodes
        (skillGapDetected ["a"] ["z"])
        (skillGapCoreMissing ["z", "b"] ["z"])
        (skillGapOptMissing [] ["z"]) :=
  (mastered_skill_gap ["a"] ["z", "b"] [] ["z"] "z" (by decide)).2.2.2.2.2.2
    (by decide)

end CampusSync
